import Mathlib

/-!
Verification of the `crypt` command-line file-encryption tool
(`src/main.rs`).

The tool encrypts or decrypts a single file with the ChaCha20-Poly1305
AEAD, keyed by a 32-byte secret given either as a literal command-line
string or as the contents of a key file.  We embed the Rust source
shallowly:

* bytes are `Nat` (values `< 256` where it matters);
* the file system is an association list from names to byte lists,
  threaded explicitly through the fallible operations;
* Rust `Result` plus the possibility of a panic is the inductive
  `RResult` (`ok` / `err` / `panicked`);
* the random nonce generator is a parameter `rng : Nat → Nat`, the
  source draws `NONCE_LEN` bytes from it;
* `std::io::Write::write` may perform a short write (it returns the
  number of bytes actually written, which the source discards), so
  `write_bytes` takes the environment-chosen count `w` as a parameter;
* the ChaCha20-Poly1305 primitive itself lives in the external
  `chacha20poly1305` crate, not in this repository; it is modelled from
  the spec (see `aeadSeal` / `aeadOpen`).
-/

namespace Crypt

/-- The `CliError` enum of the source, with its payloads. -/
inductive CliError where
  | FileReadError : String → CliError
  | FileWriteError : String → CliError
  | KeyLenError : Nat → Nat → CliError
  | EncryptionError : CliError
  | DecryptionError : CliError
deriving DecidableEq, Repr

/-- Outcome of a Rust computation: `Ok`, `Err`, or a panic (e.g. an
out-of-range slice index or `Option::unwrap` on `None`). -/
inductive RResult (α : Type) where
  | ok : α → RResult α
  | err : CliError → RResult α
  | panicked : RResult α
deriving DecidableEq, Repr

/-- The file system: newest-first association list from file names to
byte contents. -/
abbrev FS := List (String × List Nat)

/-- Look a file up; the newest entry for a name wins. -/
def FS.read : FS → String → Option (List Nat)
  | [], _ => none
  | (n, d) :: rest, name => if n = name then some d else FS.read rest name

/-- Create/overwrite a file (newest entry shadows older ones). -/
def FS.write (fs : FS) (name : String) (data : List Nat) : FS :=
  (name, data) :: fs

/-- Key length constant `KEY_LEN` of the source. -/
def KEY_LEN : Nat := 32

/-- Nonce length constant `NONCE_LEN` of the source. -/
def NONCE_LEN : Nat := 12

/-- Poly1305 authentication-tag length of the AEAD scheme (16 bytes);
a constant of the external crate, fixed by the spec's byte layout. -/
def TAG_LEN : Nat := 16

/-- Rust `read_bytes`: open the file and read it to the end; any I/O
failure becomes `FileReadError` carrying the file name.  A missing file
models every way the open/read can fail. -/
def read_bytes (fs : FS) (file_name : String) : RResult (List Nat) :=
  match FS.read fs file_name with
  | some data => .ok data
  | none => .err (.FileReadError file_name)

/-- Rust `write_bytes`: create the file and call `Write::write` once.
`Write::write` may write only a prefix of the buffer: it returns the
count `n ≤ buf.len()` of bytes actually written, which the source
discards.  The parameter `w` is the environment's count (clamped by
`List.take`); the function returns `Ok(())` regardless, as the source
does. -/
def write_bytes (w : Nat) (fs : FS) (file_name : String) (text : List Nat) :
    RResult Unit × FS :=
  (.ok (), FS.write fs file_name (text.take w))

/-- Bytes of a literal key string: the source maps each `char` through
`c as u8`, which truncates the Unicode scalar value to its low 8 bits. -/
def strBytes (s : String) : List Nat :=
  s.data.map (fun c => c.toNat % 256)

/-- Rust `get_key`: a literal key's characters are used byte-per-char;
otherwise the key file is read whole (`key_file.unwrap()` panics when
both sources are absent).  The material must be exactly `KEY_LEN` bytes,
anything else is `KeyLenError (actual, expected)`. -/
def get_key (raw_key key_file : Option String) (fs : FS) : RResult (List Nat) :=
  match raw_key with
  | some k =>
      let key := strBytes k
      if key.length = KEY_LEN then .ok key
      else .err (.KeyLenError key.length KEY_LEN)
  | none =>
      match key_file with
      | some f =>
          match read_bytes fs f with
          | .ok key =>
              if key.length = KEY_LEN then .ok key
              else .err (.KeyLenError key.length KEY_LEN)
          | .err e => .err e
          | .panicked => .panicked
      | none => .panicked

/-- Rust `new_rand_nonce`: draw `NONCE_LEN` bytes from the thread RNG.
The RNG is a parameter; each draw is a byte. -/
def new_rand_nonce (rng : Nat → Nat) : List Nat :=
  (List.range NONCE_LEN).map (fun i => rng i % 256)

/-- Modelled from the spec: the keystream of the external
ChaCha20-Poly1305 cipher, abstracted to an executable byte stream that
is a deterministic function of key, nonce and position.  The spec fixes
only that sealing is length-preserving and keyed by (key, nonce). -/
def ksByte (key nonce : List Nat) (i : Nat) : Nat :=
  (key.getD (i % KEY_LEN) 0 + nonce.getD (i % NONCE_LEN) 0 + i) % 256

/-- First `n` keystream bytes. -/
def keystream (key nonce : List Nat) (n : Nat) : List Nat :=
  (List.range n).map (ksByte key nonce)

/-- Pointwise XOR of two byte lists (stream-cipher core). -/
def xorBytes (a b : List Nat) : List Nat :=
  List.zipWith Nat.xor a b

/-- Modelled from the spec: one byte of the 16-byte authentication tag,
a keyed checksum of nonce and ciphertext.  The spec requires that the
tag authenticates both nonce and ciphertext, so any single-bit tamper is
detected. -/
def tagByte (key nonce ct : List Nat) (j : Nat) : Nat :=
  (key.getD (j % KEY_LEN) 0 + nonce.getD (j % NONCE_LEN) 0 +
    ct.sum + ct.length + j) % 256

/-- Modelled from the spec: the full `TAG_LEN`-byte authentication tag. -/
def mkTag (key nonce ct : List Nat) : List Nat :=
  (List.range TAG_LEN).map (tagByte key nonce ct)

/-- Modelled from the spec: `cipher.encrypt` of the external
`chacha20poly1305` crate — seal a plaintext under (key, nonce) into
`ciphertext ++ tag`, with `|ciphertext| = |plaintext|` and
`|tag| = TAG_LEN`. -/
def aeadSeal (key nonce pt : List Nat) : List Nat :=
  let ct := xorBytes pt (keystream key nonce pt.length)
  ct ++ mkTag key nonce ct

/-- Modelled from the spec: `cipher.decrypt` of the external
`chacha20poly1305` crate — split the trailing `TAG_LEN` bytes off as the
tag, recompute it over the received ciphertext, and open only on an
exact match (fail closed otherwise, including on payloads shorter than
the tag). -/
def aeadOpen (key nonce data : List Nat) : Option (List Nat) :=
  if TAG_LEN ≤ data.length then
    let ct := data.take (data.length - TAG_LEN)
    let tag := data.drop (data.length - TAG_LEN)
    if mkTag key nonce ct = tag then
      some (xorBytes ct (keystream key nonce ct.length))
    else none
  else none

/-- Rust `encrypt`: resolve the key, draw a fresh nonce, read the whole
input file, seal it, and write `nonce ++ sealed` to `<file>.crypt`.
The state (file system) is threaded; on failure it is unchanged. -/
def encrypt (rng : Nat → Nat) (w : Nat) (file_name : String)
    (raw_key key_file : Option String) (fs : FS) : RResult Unit × FS :=
  match get_key raw_key key_file fs with
  | .err e => (.err e, fs)
  | .panicked => (.panicked, fs)
  | .ok key =>
      let nonce := new_rand_nonce rng
      match read_bytes fs file_name with
      | .err e => (.err e, fs)
      | .panicked => (.panicked, fs)
      | .ok pt =>
          let ciphertext := aeadSeal key nonce pt
          write_bytes w fs (file_name ++ ".crypt") (nonce ++ ciphertext)

/-- Rust `decrypt`: resolve the key, read `<file>.crypt` whole, take the
first `NONCE_LEN` bytes as nonce via the slice `data[..NONCE_LEN]` —
which PANICS when the data is shorter — open the rest, and on success
write the recovered plaintext to `<file>`. -/
def decrypt (w : Nat) (file_name : String)
    (raw_key key_file : Option String) (fs : FS) : RResult Unit × FS :=
  match get_key raw_key key_file fs with
  | .err e => (.err e, fs)
  | .panicked => (.panicked, fs)
  | .ok key =>
      match read_bytes fs (file_name ++ ".crypt") with
      | .err e => (.err e, fs)
      | .panicked => (.panicked, fs)
      | .ok data =>
          if NONCE_LEN ≤ data.length then
            match aeadOpen key (data.take NONCE_LEN) (data.drop NONCE_LEN) with
            | some plaintext => write_bytes w fs file_name plaintext
            | none => (.err .DecryptionError, fs)
          else (.panicked, fs)

/-- Clap's acceptance of the two key flags, per the source's derive
attributes: both `key` and `key_file` carry `group = "key_g"`, so the
implicit `ArgGroup` makes them mutually exclusive; the group is not
marked required, so an invocation naming neither is accepted by the
parser.  (Clap is an external crate; this models its documented group
semantics for exactly the attributes in the source.) -/
def clapAccepts (key key_file : Option String) : Bool :=
  !(key.isSome && key_file.isSome)

/-- Single-bit tamper: flip bit `b` of byte `i` of a blob. -/
def flipBit (l : List Nat) (i b : Nat) : List Nat :=
  l.set i (l.getD i 0 ^^^ 2 ^ b)

/-- Spec-side characterisation of the resolved key material: the literal
key's bytes when a literal is given, otherwise the key file's whole
contents.  Used only to state claims about `get_key`. -/
def resolvedMaterial (raw_key key_file : Option String) (fs : FS) :
    Option (List Nat) :=
  match raw_key with
  | some s => some (strBytes s)
  | none =>
      match key_file with
      | some f => FS.read fs f
      | none => none

/-! ### Basic lemmas about the file system and the primitives -/

theorem FS.read_write_self (fs : FS) (n : String) (d : List Nat) :
    FS.read (FS.write fs n d) n = some d := by
  simp [FS.read, FS.write]

theorem FS.read_write_other (fs : FS) {n m : String} (d : List Nat)
    (h : n ≠ m) : FS.read (FS.write fs n d) m = FS.read fs m := by
  simp [FS.read, FS.write, h]

theorem crypt_name_ne (p : String) : p ++ ".crypt" ≠ p := by
  intro h
  have := congrArg String.length h
  simp [String.length_append] at this
  exact absurd this (by decide)

theorem length_new_rand_nonce (rng : Nat → Nat) :
    (new_rand_nonce rng).length = NONCE_LEN := by
  simp [new_rand_nonce]

theorem new_rand_nonce_lt (rng : Nat → Nat) :
    ∀ x ∈ new_rand_nonce rng, x < 256 := by
  intro x hx
  simp [new_rand_nonce] at hx
  obtain ⟨i, -, rfl⟩ := hx
  exact Nat.mod_lt _ (by norm_num)

theorem length_keystream (key nonce : List Nat) (n : Nat) :
    (keystream key nonce n).length = n := by
  simp [keystream]

theorem keystream_lt (key nonce : List Nat) (n : Nat) :
    ∀ x ∈ keystream key nonce n, x < 256 := by
  intro x hx
  simp [keystream, ksByte] at hx
  obtain ⟨i, -, rfl⟩ := hx
  exact Nat.mod_lt _ (by norm_num)

theorem length_xorBytes (a b : List Nat) :
    (xorBytes a b).length = min a.length b.length := by
  simp [xorBytes]

theorem xorBytes_mem_lt :
    ∀ (a b : List Nat), (∀ x ∈ a, x < 256) → (∀ x ∈ b, x < 256) →
      ∀ x ∈ xorBytes a b, x < 256
  | [], _, _, _ => by simp [xorBytes]
  | _ :: _, [], _, _ => by simp [xorBytes]
  | a :: as, b :: bs, ha, hb => by
    intro x hx
    simp only [xorBytes, List.zipWith_cons_cons, List.mem_cons] at hx
    rcases hx with rfl | hx
    · have h2 : (256 : Nat) = 2 ^ 8 := by norm_num
      rw [h2]
      exact Nat.xor_lt_two_pow (h2 ▸ ha a (by simp)) (h2 ▸ hb b (by simp))
    · exact xorBytes_mem_lt as bs (fun y hy => ha y (by simp [hy]))
        (fun y hy => hb y (by simp [hy])) x hx

theorem xorBytes_cancel :
    ∀ (a b : List Nat), a.length ≤ b.length → xorBytes (xorBytes a b) b = a
  | [], _, _ => by simp [xorBytes]
  | a :: as, [], h => by simp at h
  | a :: as, b :: bs, h => by
    simp only [xorBytes, List.zipWith_cons_cons, List.cons.injEq]
    exact ⟨Nat.xor_cancel_right b a,
      xorBytes_cancel as bs (by simpa using h)⟩

theorem length_mkTag (key nonce ct : List Nat) :
    (mkTag key nonce ct).length = TAG_LEN := by
  simp [mkTag]

theorem mkTag_lt (key nonce ct : List Nat) :
    ∀ x ∈ mkTag key nonce ct, x < 256 := by
  intro x hx
  simp [mkTag, tagByte] at hx
  obtain ⟨j, -, rfl⟩ := hx
  exact Nat.mod_lt _ (by norm_num)

theorem length_aeadSeal (key nonce pt : List Nat) :
    (aeadSeal key nonce pt).length = pt.length + TAG_LEN := by
  simp [aeadSeal, length_xorBytes, length_keystream, length_mkTag]

/-- Round trip of the AEAD model: opening a sealed message under the
same key and nonce succeeds and returns the plaintext. -/
theorem aeadOpen_aeadSeal (key nonce pt : List Nat) :
    aeadOpen key nonce (aeadSeal key nonce pt) = some pt := by
  have hct : (xorBytes pt (keystream key nonce pt.length)).length = pt.length := by
    simp [length_xorBytes, length_keystream]
  simp only [aeadSeal, aeadOpen, List.length_append, hct, length_mkTag]
  rw [if_pos (by omega)]
  rw [Nat.add_sub_cancel]
  rw [List.take_left' hct, List.drop_left' hct]
  rw [if_pos rfl, hct]
  rw [xorBytes_cancel pt _ (by simp [length_keystream])]

theorem getD_lt_of_forall_lt :
    ∀ (l : List Nat), (∀ x ∈ l, x < 256) → ∀ i, l.getD i 0 < 256
  | [], _, i => by simp [List.getD]
  | x :: xs, h, 0 => by simpa using h x (by simp)
  | x :: xs, h, i + 1 => by
    simpa using getD_lt_of_forall_lt xs (fun y hy => h y (by simp [hy])) i

theorem sum_set_add :
    ∀ (l : List Nat) (i a : Nat), i < l.length →
      (l.set i a).sum + l.getD i 0 = l.sum + a
  | [], i, a, h => by simp at h
  | x :: xs, 0, a, _ => by simp; omega
  | x :: xs, i + 1, a, h => by
    have := sum_set_add xs i a (by simpa using h)
    simp only [List.set_cons_succ, List.sum_cons, List.getD_cons_succ]
    omega

theorem xor_two_pow_ne (x b : Nat) : x ^^^ 2 ^ b ≠ x := by
  intro h
  have h0 : x ^^^ (x ^^^ 2 ^ b) = x ^^^ x := congrArg (x ^^^ ·) h
  rw [Nat.xor_cancel_left, Nat.xor_self] at h0
  exact absurd h0 (Nat.two_pow_pos b).ne'

theorem xor_two_pow_lt {x : Nat} (hx : x < 256) {b : Nat} (hb : b < 8) :
    x ^^^ 2 ^ b < 256 := by
  have h2 : (256 : Nat) = 2 ^ 8 := by norm_num
  rw [h2]
  exact Nat.xor_lt_two_pow (h2 ▸ hx)
    (Nat.pow_lt_pow_right (by norm_num) hb)

theorem ne_of_getD_ne {l₁ l₂ : List Nat} (i : Nat)
    (h : l₁.getD i 0 ≠ l₂.getD i 0) : l₁ ≠ l₂ :=
  fun he => h (by rw [he])

theorem getD_set_self (l : List Nat) (i a : Nat) (h : i < l.length) :
    (l.set i a).getD i 0 = a := by
  simp [List.getD_eq_getElem?_getD, List.getElem?_set, h]

theorem getD_range_map (f : Nat → Nat) (j n : Nat) (h : j < n) :
    ((List.range n).map f).getD j 0 = f j := by
  simp [List.getD_eq_getElem?_getD, List.getElem?_map, List.getElem?_range, h]

theorem set_append_lt {α : Type} (l₁ l₂ : List α) (i : Nat) (a : α)
    (h : i < l₁.length) : (l₁ ++ l₂).set i a = l₁.set i a ++ l₂ := by
  rw [List.set_append]
  simp [h]

theorem set_append_ge {α : Type} (l₁ l₂ : List α) (i : Nat) (a : α)
    (h : l₁.length ≤ i) :
    (l₁ ++ l₂).set i a = l₁ ++ l₂.set (i - l₁.length) a := by
  rw [List.set_append]
  simp [Nat.not_lt.mpr h]

/-- Core tamper-detection lemma of the AEAD model: flipping any single
bit of a sealed blob `nonce ++ ct ++ tag` — whether in the nonce, the
ciphertext or the tag — makes `aeadOpen` reject, because the recomputed
tag no longer matches the stored one. -/
theorem aeadOpen_flip (key nonce ct : List Nat)
    (hn : nonce.length = NONCE_LEN)
    (hnb : ∀ x ∈ nonce, x < 256) (hct : ∀ x ∈ ct, x < 256)
    (i b : Nat) (hi : i < NONCE_LEN + ct.length + TAG_LEN) (hb : b < 8) :
    aeadOpen key
      ((flipBit (nonce ++ (ct ++ mkTag key nonce ct)) i b).take NONCE_LEN)
      ((flipBit (nonce ++ (ct ++ mkTag key nonce ct)) i b).drop NONCE_LEN)
      = none := by
  have hN : NONCE_LEN = 12 := rfl
  have hT : TAG_LEN = 16 := rfl
  have htag : (mkTag key nonce ct).length = TAG_LEN := length_mkTag key nonce ct
  by_cases h1 : i < NONCE_LEN
  · -- the flipped bit falls in the nonce
    have hget : (nonce ++ (ct ++ mkTag key nonce ct)).getD i 0
        = nonce.getD i 0 :=
      List.getD_append _ _ 0 i (by omega)
    rw [flipBit, hget, set_append_lt _ _ _ _ (by omega)]
    rw [List.take_left' (by simp [hn]), List.drop_left' (by simp [hn])]
    have hlen : (ct ++ mkTag key nonce ct).length = ct.length + TAG_LEN := by
      simp [htag]
    simp only [aeadOpen]
    rw [hlen, if_pos (by omega), Nat.add_sub_cancel,
      List.take_left' rfl, List.drop_left' rfl, if_neg ?_]
    apply ne_of_getD_ne i
    rw [mkTag, mkTag, getD_range_map _ i TAG_LEN (by omega),
      getD_range_map _ i TAG_LEN (by omega)]
    simp only [tagByte]
    rw [Nat.mod_eq_of_lt h1, getD_set_self nonce i _ (by omega)]
    have hx : nonce.getD i 0 < 256 := getD_lt_of_forall_lt nonce hnb i
    have hx' : nonce.getD i 0 ^^^ 2 ^ b < 256 := xor_two_pow_lt hx hb
    have hne2 : nonce.getD i 0 ^^^ 2 ^ b ≠ nonce.getD i 0 := xor_two_pow_ne _ b
    omega
  · by_cases h2 : i < NONCE_LEN + ct.length
    · -- the flipped bit falls in the ciphertext
      have h1' : NONCE_LEN ≤ i := Nat.not_lt.mp h1
      have hget : (nonce ++ (ct ++ mkTag key nonce ct)).getD i 0
          = ct.getD (i - NONCE_LEN) 0 := by
        rw [List.getD_append_right _ _ 0 i (by omega), hn]
        exact List.getD_append _ _ 0 _ (by omega)
      rw [flipBit, hget, set_append_ge _ _ _ _ (by omega), hn,
        set_append_lt _ _ _ _ (by omega)]
      rw [List.take_left' hn, List.drop_left' hn]
      have hlen : (ct.set (i - NONCE_LEN) (ct.getD (i - NONCE_LEN) 0 ^^^ 2 ^ b)
          ++ mkTag key nonce ct).length = ct.length + TAG_LEN := by
        simp [htag]
      simp only [aeadOpen]
      rw [hlen, if_pos (by omega), Nat.add_sub_cancel,
        List.take_left' (by simp), List.drop_left' (by simp), if_neg ?_]
      apply ne_of_getD_ne 0
      rw [mkTag, mkTag, getD_range_map _ 0 TAG_LEN (by omega),
        getD_range_map _ 0 TAG_LEN (by omega)]
      simp only [tagByte, List.length_set]
      have hsum := sum_set_add ct (i - NONCE_LEN)
        (ct.getD (i - NONCE_LEN) 0 ^^^ 2 ^ b) (by omega)
      have hx : ct.getD (i - NONCE_LEN) 0 < 256 := getD_lt_of_forall_lt ct hct _
      have hx' : ct.getD (i - NONCE_LEN) 0 ^^^ 2 ^ b < 256 := xor_two_pow_lt hx hb
      have hne2 : ct.getD (i - NONCE_LEN) 0 ^^^ 2 ^ b ≠ ct.getD (i - NONCE_LEN) 0 :=
        xor_two_pow_ne _ b
      omega
    · -- the flipped bit falls in the authentication tag
      have h1' : NONCE_LEN ≤ i := Nat.not_lt.mp h1
      have h2' : NONCE_LEN + ct.length ≤ i := Nat.not_lt.mp h2
      have hget : (nonce ++ (ct ++ mkTag key nonce ct)).getD i 0
          = (mkTag key nonce ct).getD (i - NONCE_LEN - ct.length) 0 := by
        rw [List.getD_append_right _ _ 0 i (by omega), hn]
        exact List.getD_append_right _ _ 0 _ (by omega)
      rw [flipBit, hget, set_append_ge _ _ _ _ (by omega), hn,
        set_append_ge _ _ _ _ (by omega)]
      rw [List.take_left' hn, List.drop_left' hn]
      have hlen : (ct ++ (mkTag key nonce ct).set (i - NONCE_LEN - ct.length)
          ((mkTag key nonce ct).getD (i - NONCE_LEN - ct.length) 0 ^^^ 2 ^ b)).length
          = ct.length + TAG_LEN := by
        simp [htag]
      simp only [aeadOpen]
      rw [hlen, if_pos (by omega), Nat.add_sub_cancel,
        List.take_left' rfl, List.drop_left' rfl, if_neg ?_]
      apply ne_of_getD_ne (i - NONCE_LEN - ct.length)
      rw [getD_set_self _ _ _ (by omega)]
      exact (xor_two_pow_ne _ b).symm

/-! ### Success-path characterisations of the pipeline -/

/-- A successful `encrypt` with a 32-byte literal key and a complete
write stores `nonce ++ sealed` at `<file>.crypt`. -/
theorem encrypt_ok (rng : Nat → Nat) (w : Nat) (p s : String) (fs : FS)
    (P : List Nat) (hkey : (strBytes s).length = KEY_LEN)
    (hP : FS.read fs p = some P) (hw : P.length + 28 ≤ w) :
    encrypt rng w p (some s) none fs
      = (.ok (), FS.write fs (p ++ ".crypt")
          (new_rand_nonce rng ++ aeadSeal (strBytes s) (new_rand_nonce rng) P)) := by
  have hN : NONCE_LEN = 12 := rfl
  have hT : TAG_LEN = 16 := rfl
  have hblob : (new_rand_nonce rng ++ aeadSeal (strBytes s) (new_rand_nonce rng) P).take w
      = new_rand_nonce rng ++ aeadSeal (strBytes s) (new_rand_nonce rng) P :=
    List.take_of_length_le (by
      simp only [List.length_append, length_new_rand_nonce, length_aeadSeal]
      omega)
  simp [encrypt, get_key, hkey, read_bytes, hP, write_bytes, hblob]

/-- A `decrypt` that finds a well-formed sealed blob under the matching
key recovers the plaintext and writes it (completely) to the input
path. -/
theorem decrypt_valid (w : Nat) (p s : String) (fs : FS) (P N : List Nat)
    (hkey : (strBytes s).length = KEY_LEN) (hN : N.length = NONCE_LEN)
    (hread : FS.read fs (p ++ ".crypt") = some (N ++ aeadSeal (strBytes s) N P))
    (hw : P.length ≤ w) :
    decrypt w p (some s) none fs = (.ok (), FS.write fs p P) := by
  have hNv : NONCE_LEN = 12 := rfl
  have hT : TAG_LEN = 16 := rfl
  have hblen : (N ++ aeadSeal (strBytes s) N P).length
      = NONCE_LEN + (P.length + TAG_LEN) := by
    simp [length_aeadSeal, hN]
  simp only [decrypt, get_key, hkey, if_pos, read_bytes, hread]
  rw [if_pos (by omega)]
  rw [List.take_left' hN, List.drop_left' hN, aeadOpen_aeadSeal]
  simp [write_bytes, List.take_of_length_le hw]

/-! ### The claims -/

/-- C1: for every plaintext byte sequence `P` and valid 32-byte key,
encrypting `P` (producing the nonce-prefixed blob at `<file>.crypt`) and
then decrypting under the same key succeeds and restores exactly `P` at
the input path.  The write counts `w₁, w₂` must cover the buffers, i.e.
the environment performs complete writes. -/
theorem C1_round_trip (rng : Nat → Nat) (w₁ w₂ : Nat) (p s : String)
    (fs : FS) (P : List Nat)
    (hkey : (strBytes s).length = KEY_LEN)
    (hP : FS.read fs p = some P)
    (hw₁ : P.length + 28 ≤ w₁) (hw₂ : P.length ≤ w₂) :
    (encrypt rng w₁ p (some s) none fs).1 = .ok () ∧
    (decrypt w₂ p (some s) none (encrypt rng w₁ p (some s) none fs).2).1
      = .ok () ∧
    FS.read (decrypt w₂ p (some s) none (encrypt rng w₁ p (some s) none fs).2).2 p
      = some P := by
  rw [encrypt_ok rng w₁ p s fs P hkey hP hw₁]
  rw [decrypt_valid w₂ p s _ P (new_rand_nonce rng) hkey
    (length_new_rand_nonce rng) (FS.read_write_self _ _ _) hw₂]
  exact ⟨rfl, rfl, FS.read_write_self _ _ _⟩

/-- Witness for C1 at a concrete plaintext, key and file system. -/
theorem C1_round_trip_witness :
    (strBytes "0123456789abcdef0123456789abcdef").length = KEY_LEN ∧
    FS.read [("f", [104, 101, 108, 108, 111])] "f" = some [104, 101, 108, 108, 111] ∧
    (decrypt 64 "f" (some "0123456789abcdef0123456789abcdef") none
        (encrypt (fun i => i) 64 "f" (some "0123456789abcdef0123456789abcdef") none
          [("f", [104, 101, 108, 108, 111])]).2).1 = .ok () ∧
    FS.read (decrypt 64 "f" (some "0123456789abcdef0123456789abcdef") none
        (encrypt (fun i => i) 64 "f" (some "0123456789abcdef0123456789abcdef") none
          [("f", [104, 101, 108, 108, 111])]).2).2 "f"
      = some [104, 101, 108, 108, 111] :=
  ⟨by decide, rfl,
    (C1_round_trip (fun i => i) 64 64 "f" "0123456789abcdef0123456789abcdef"
      [("f", [104, 101, 108, 108, 111])] [104, 101, 108, 108, 111]
      (by decide) rfl (by decide) (by decide)).2.1,
    (C1_round_trip (fun i => i) 64 64 "f" "0123456789abcdef0123456789abcdef"
      [("f", [104, 101, 108, 108, 111])] [104, 101, 108, 108, 111]
      (by decide) rfl (by decide) (by decide)).2.2⟩

/-- C4: `get_key` succeeds exactly when the resolved key material
(literal bytes or whole key-file contents) is exactly 32 bytes; any
other length `L` fails with `KeyLenError (L, 32)`. -/
theorem C4_key_length (raw_key key_file : Option String) (fs : FS)
    (key : List Nat) (h : resolvedMaterial raw_key key_file fs = some key) :
    get_key raw_key key_file fs
      = (if key.length = 32 then .ok key
         else .err (.KeyLenError key.length 32)) := by
  match raw_key, key_file with
  | some s, _ =>
      simp only [resolvedMaterial, Option.some.injEq] at h
      subst h
      simp [get_key, KEY_LEN]
  | none, some f =>
      simp only [resolvedMaterial] at h
      simp [get_key, read_bytes, h, KEY_LEN]
  | none, none =>
      simp [resolvedMaterial] at h

/-- Witness for C4: a 31-byte literal key is rejected with
`KeyLenError (31, 32)`. -/
theorem C4_key_length_witness :
    resolvedMaterial (some "0123456789abcdef0123456789abcde") none []
      = some (strBytes "0123456789abcdef0123456789abcde") ∧
    get_key (some "0123456789abcdef0123456789abcde") none []
      = (if (strBytes "0123456789abcdef0123456789abcde").length = 32
         then .ok (strBytes "0123456789abcdef0123456789abcde")
         else .err (.KeyLenError
                (strBytes "0123456789abcdef0123456789abcde").length 32)) :=
  ⟨rfl, C4_key_length (some "0123456789abcdef0123456789abcde") none []
    (strBytes "0123456789abcdef0123456789abcde") rfl⟩

/-- C9: a literal key maps each character to exactly one byte (the
`c as u8` truncation of its scalar value — the raw byte for every
single-byte character), so the key material's length equals the number
of characters, and a 32-character literal passes the length check. -/
theorem C9_literal_key (s : String) (key_file : Option String) (fs : FS) :
    (strBytes s).length = s.data.length ∧
    strBytes s = s.data.map (fun c => c.toNat % 256) ∧
    (s.data.length = 32 → get_key (some s) key_file fs = .ok (strBytes s)) := by
  refine ⟨by simp [strBytes], rfl, fun h => ?_⟩
  have hk : (strBytes s).length = KEY_LEN := by
    simp [strBytes, KEY_LEN, h]
  simp [get_key, hk]

/-- Witness for C9 at a concrete 32-character literal. -/
theorem C9_literal_key_witness :
    ("0123456789abcdef0123456789abcdef" : String).data.length = 32 ∧
    get_key (some "0123456789abcdef0123456789abcdef") none []
      = .ok (strBytes "0123456789abcdef0123456789abcdef") :=
  ⟨by decide,
    (C9_literal_key "0123456789abcdef0123456789abcdef" none []).2.2 (by decide)⟩

/-- C2: the claim says a `.crypt` file shorter than 12 bytes fails
gracefully with a reported error and never panics.  The code has no
guard: the slice `data[..NONCE_LEN]` is taken unconditionally, so a
3-byte ciphertext file makes `decrypt` panic (out-of-range slice) with
the file system untouched, instead of returning a `CliError`. -/
theorem C2_truncated_ciphertext_panics :
    decrypt 100 "f" (some "0123456789abcdef0123456789abcdef") none
        [("f.crypt", [1, 2, 3])]
      = (.panicked, [("f.crypt", [1, 2, 3])]) ∧
    decrypt 100 "f" (some "0123456789abcdef0123456789abcdef") none
        [("f.crypt", [])]
      = (.panicked, [("f.crypt", [])]) := by
  constructor <;> rfl

/-- C3: the claim says supplying neither key source is rejected at the
argument-parsing boundary, so `get_key` is total.  The clap group
`key_g` does reject supplying both flags, but it is not marked required,
so an invocation with neither flag reaches `get_key`, which panics on
`key_file.unwrap()`. -/
theorem C3_missing_key_panics :
    clapAccepts none none = true ∧
    get_key none none ([] : FS) = .panicked ∧
    clapAccepts (some "k") (some "kf") = false ∧
    encrypt (fun i => i) 100 "f" none none [("f", [1])]
      = (.panicked, [("f", [1])]) := by
  refine ⟨rfl, rfl, rfl, rfl⟩

/-- C10: the claim says a successful `write_bytes` has persisted the
entire buffer.  The code calls `Write::write` once and discards the
returned count, so a short write (here the environment writes 1 of 2
bytes) still returns `Ok(())` while only a strict prefix of the buffer
is on disk. -/
theorem C10_short_write_succeeds :
    (write_bytes 1 ([] : FS) "f" [10, 20]).1 = .ok () ∧
    FS.read (write_bytes 1 ([] : FS) "f" [10, 20]).2 "f" = some [10] ∧
    ([10] : List Nat) ≠ [10, 20] := by
  refine ⟨rfl, rfl, by decide⟩

/-- C5: a successful encrypt writes to `<input>.crypt` exactly the
12-byte nonce followed by the AEAD output (ciphertext ++ tag) — no
header, version tag or magic bytes. -/
theorem C5_output_layout (rng : Nat → Nat) (w : Nat) (p s : String)
    (fs : FS) (P : List Nat)
    (hkey : (strBytes s).length = KEY_LEN)
    (hP : FS.read fs p = some P) (hw : P.length + 28 ≤ w) :
    (encrypt rng w p (some s) none fs).1 = .ok () ∧
    FS.read (encrypt rng w p (some s) none fs).2 (p ++ ".crypt")
      = some (new_rand_nonce rng ++ aeadSeal (strBytes s) (new_rand_nonce rng) P) := by
  rw [encrypt_ok rng w p s fs P hkey hP hw]
  exact ⟨rfl, FS.read_write_self _ _ _⟩

/-- Witness for C5 at a concrete plaintext and key. -/
theorem C5_output_layout_witness :
    (strBytes "0123456789abcdef0123456789abcdef").length = KEY_LEN ∧
    FS.read [("f", [104, 101])] "f" = some [104, 101] ∧
    FS.read (encrypt (fun i => i) 64 "f"
        (some "0123456789abcdef0123456789abcdef") none [("f", [104, 101])]).2
        ("f" ++ ".crypt")
      = some (new_rand_nonce (fun i => i) ++
          aeadSeal (strBytes "0123456789abcdef0123456789abcdef")
            (new_rand_nonce (fun i => i)) [104, 101]) :=
  ⟨by decide, rfl,
    (C5_output_layout (fun i => i) 64 "f" "0123456789abcdef0123456789abcdef"
      [("f", [104, 101])] [104, 101] (by decide) rfl (by decide)).2⟩

/-- C6: `decrypt` reads `<input>.crypt`, and whenever the AEAD open of
that blob fails it returns `DecryptionError` and leaves the file system
— in particular the file at the input path — completely unchanged. -/
theorem C6_decrypt_failure_no_output (w : Nat) (p s : String) (fs : FS)
    (data : List Nat)
    (hkey : (strBytes s).length = KEY_LEN)
    (hread : FS.read fs (p ++ ".crypt") = some data)
    (hlen : NONCE_LEN ≤ data.length)
    (hopen : aeadOpen (strBytes s) (data.take NONCE_LEN) (data.drop NONCE_LEN)
      = none) :
    decrypt w p (some s) none fs = (.err .DecryptionError, fs) := by
  simp [decrypt, get_key, hkey, read_bytes, hread, hlen, hopen]

/-- Witness for C6: a 12-byte blob (empty payload: shorter than the tag)
is rejected and nothing is written. -/
theorem C6_decrypt_failure_no_output_witness :
    NONCE_LEN ≤ ([0, 0, 0, 0, 0, 0, 0, 0, 0, 0, 0, 0] : List Nat).length ∧
    aeadOpen (strBytes "0123456789abcdef0123456789abcdef")
        (([0, 0, 0, 0, 0, 0, 0, 0, 0, 0, 0, 0] : List Nat).take NONCE_LEN)
        (([0, 0, 0, 0, 0, 0, 0, 0, 0, 0, 0, 0] : List Nat).drop NONCE_LEN)
      = none ∧
    decrypt 100 "f" (some "0123456789abcdef0123456789abcdef") none
        [("f.crypt", [0, 0, 0, 0, 0, 0, 0, 0, 0, 0, 0, 0])]
      = (.err .DecryptionError,
         [("f.crypt", [0, 0, 0, 0, 0, 0, 0, 0, 0, 0, 0, 0])]) :=
  ⟨by decide, by decide,
    C6_decrypt_failure_no_output 100 "f" "0123456789abcdef0123456789abcdef"
      [("f.crypt", [0, 0, 0, 0, 0, 0, 0, 0, 0, 0, 0, 0])]
      [0, 0, 0, 0, 0, 0, 0, 0, 0, 0, 0, 0]
      (by decide) rfl (by decide) (by decide)⟩

/-- C8: the blob a successful encrypt writes for an `n`-byte plaintext
is exactly `n + 28` bytes: a 12-byte nonce, `n` ciphertext bytes, and a
16-byte tag. -/
theorem C8_output_length (rng : Nat → Nat) (w : Nat) (p s : String)
    (fs : FS) (P : List Nat)
    (hkey : (strBytes s).length = KEY_LEN)
    (hP : FS.read fs p = some P) (hw : P.length + 28 ≤ w) :
    (FS.read (encrypt rng w p (some s) none fs).2 (p ++ ".crypt")).map
        List.length = some (P.length + 28) ∧
    (new_rand_nonce rng).length = 12 ∧
    (xorBytes P (keystream (strBytes s) (new_rand_nonce rng) P.length)).length
      = P.length ∧
    (mkTag (strBytes s) (new_rand_nonce rng)
        (xorBytes P (keystream (strBytes s) (new_rand_nonce rng) P.length))).length
      = 16 := by
  rw [encrypt_ok rng w p s fs P hkey hP hw, FS.read_write_self]
  refine ⟨?_, length_new_rand_nonce rng, ?_, length_mkTag _ _ _⟩
  · simp [length_new_rand_nonce, length_aeadSeal]
    have hN : NONCE_LEN = 12 := rfl
    have hT : TAG_LEN = 16 := rfl
    omega
  · simp [length_xorBytes, length_keystream]

/-- Witness for C8 at a concrete 2-byte plaintext: the stored blob has
30 bytes. -/
theorem C8_output_length_witness :
    (strBytes "0123456789abcdef0123456789abcdef").length = KEY_LEN ∧
    (FS.read (encrypt (fun i => i) 64 "f"
        (some "0123456789abcdef0123456789abcdef") none
        [("f", [104, 101])]).2 ("f" ++ ".crypt")).map List.length
      = some (([104, 101] : List Nat).length + 28) :=
  ⟨by decide,
    (C8_output_length (fun i => i) 64 "f" "0123456789abcdef0123456789abcdef"
      [("f", [104, 101])] [104, 101] (by decide) rfl (by decide)).1⟩

/-- C7: flipping any single bit of the blob a successful encrypt stored
(at any byte `i` of nonce, ciphertext or tag, any bit `b`) makes
decryption under the same key fail with `DecryptionError` — no corrupted
plaintext is ever written, the file system stays as it was after the
tamper. -/
theorem C7_tamper_detection (rng : Nat → Nat) (w₁ w₂ : Nat) (p s : String)
    (fs : FS) (P : List Nat) (i b : Nat)
    (hkey : (strBytes s).length = KEY_LEN)
    (hP : FS.read fs p = some P) (hPb : ∀ x ∈ P, x < 256)
    (hw₁ : P.length + 28 ≤ w₁)
    (hi : i < P.length + 28) (hb : b < 8) :
    ∀ blob,
      FS.read (encrypt rng w₁ p (some s) none fs).2 (p ++ ".crypt") = some blob →
      decrypt w₂ p (some s) none
          (FS.write (encrypt rng w₁ p (some s) none fs).2 (p ++ ".crypt")
            (flipBit blob i b))
        = (.err .DecryptionError,
           FS.write (encrypt rng w₁ p (some s) none fs).2 (p ++ ".crypt")
             (flipBit blob i b)) := by
  have hN : NONCE_LEN = 12 := rfl
  have hT : TAG_LEN = 16 := rfl
  rw [encrypt_ok rng w₁ p s fs P hkey hP hw₁]
  intro blob hblob
  rw [FS.read_write_self] at hblob
  injection hblob with hblob
  subst hblob
  have hseal : aeadSeal (strBytes s) (new_rand_nonce rng) P
      = xorBytes P (keystream (strBytes s) (new_rand_nonce rng) P.length)
        ++ mkTag (strBytes s) (new_rand_nonce rng)
            (xorBytes P (keystream (strBytes s) (new_rand_nonce rng) P.length)) :=
    rfl
  have hct_len :
      (xorBytes P (keystream (strBytes s) (new_rand_nonce rng) P.length)).length
        = P.length := by
    simp [length_xorBytes, length_keystream]
  have hopen := aeadOpen_flip (strBytes s) (new_rand_nonce rng)
    (xorBytes P (keystream (strBytes s) (new_rand_nonce rng) P.length))
    (length_new_rand_nonce rng) (new_rand_nonce_lt rng)
    (xorBytes_mem_lt P _ hPb (keystream_lt _ _ _)) i b
    (by rw [hct_len]; omega) hb
  rw [hseal]
  simp only [decrypt, get_key, hkey, if_pos, read_bytes, FS.read_write_self]
  rw [if_pos (by
    simp only [flipBit, List.length_set, List.length_append,
      length_new_rand_nonce, hct_len, length_mkTag]
    omega)]
  rw [hopen]

/-- Witness for C7: flip bit 0 of byte 0 (the nonce's first byte) of the
blob stored for the 1-byte plaintext `[7]`; decryption rejects it. -/
theorem C7_tamper_detection_witness :
    (∀ x ∈ ([7] : List Nat), x < 256) ∧
    decrypt 64 "f" (some "0123456789abcdef0123456789abcdef") none
        (FS.write (encrypt (fun i => i) 64 "f"
            (some "0123456789abcdef0123456789abcdef") none [("f", [7])]).2
          ("f" ++ ".crypt")
          (flipBit (new_rand_nonce (fun i => i) ++
            aeadSeal (strBytes "0123456789abcdef0123456789abcdef")
              (new_rand_nonce (fun i => i)) [7]) 0 0))
      = (.err .DecryptionError,
         FS.write (encrypt (fun i => i) 64 "f"
             (some "0123456789abcdef0123456789abcdef") none [("f", [7])]).2
           ("f" ++ ".crypt")
           (flipBit (new_rand_nonce (fun i => i) ++
             aeadSeal (strBytes "0123456789abcdef0123456789abcdef")
               (new_rand_nonce (fun i => i)) [7]) 0 0)) :=
  ⟨by decide,
    C7_tamper_detection (fun i => i) 64 64 "f"
      "0123456789abcdef0123456789abcdef" [("f", [7])] [7] 0 0
      (by decide) rfl (by decide) (by decide) (by decide) (by decide)
      (new_rand_nonce (fun i => i) ++
        aeadSeal (strBytes "0123456789abcdef0123456789abcdef")
          (new_rand_nonce (fun i => i)) [7])
      (by rfl)⟩

end Crypt
